import Mathlib

/-!
Verification of the supplier-sustainability scoring core against its
natural-language specification.  The TypeScript sources are embedded
shallowly: JS numbers become `ℚ`, `Record<string, T>` becomes an
association list `List (String × T)` (first-match lookup, in-place
update), `null`/missing values become `Option`, and every function is a
computable Lean `def` mirroring the control flow of the source.
-/

namespace SupplierTool

/-! ### JS character and string primitives -/

/-- Decimal digit test, as in the regex class `\d`. -/
def isDigitCh (c : Char) : Bool := '0' ≤ c && c ≤ '9'

/-- ASCII letter test, as in the regex class `[a-z]` with the `i` flag. -/
def isAsciiLetterCh (c : Char) : Bool := ('a' ≤ c && c ≤ 'z') || ('A' ≤ c && c ≤ 'Z')

/-- Alphanumeric test, as in the regex class `[^a-zA-Z0-9]` complement. -/
def isAlphanumCh (c : Char) : Bool := isDigitCh c || isAsciiLetterCh c

/-- Whitespace test for the regex class `\s` and `String.prototype.trim`
(restricted to the ASCII whitespace occurring in the data). -/
def isSpaceCh (c : Char) : Bool :=
  c = ' ' || c = '\t' || c = '\n' || c = '\r' || c = '\x0b' || c = '\x0c'

/-- ASCII lower-casing of one character (`String.prototype.toLowerCase`). -/
def jsToLower (c : Char) : Char :=
  if 'A' ≤ c && c ≤ 'Z' then Char.ofNat (c.toNat + 32) else c

/-- ASCII upper-casing of one character (`String.prototype.toUpperCase`). -/
def jsToUpper (c : Char) : Char :=
  if 'a' ≤ c && c ≤ 'z' then Char.ofNat (c.toNat - 32) else c

/-- Trim of a character list on both ends (`String.prototype.trim`). -/
def jsTrimList (cs : List Char) : List Char :=
  ((cs.dropWhile isSpaceCh).reverse.dropWhile isSpaceCh).reverse

/-- Trim of a string on both ends (`String.prototype.trim`). -/
def jsTrim (s : String) : String := ⟨jsTrimList s.data⟩

/-- Split of a character list at a separator character, keeping empty
pieces (`String.prototype.split` with a one-character separator). -/
def splitOnChar (sep : Char) : List Char → List (List Char)
  | [] => [[]]
  | c :: cs =>
    match splitOnChar sep cs with
    | [] => [[]]
    | p :: ps => if c = sep then [] :: p :: ps else (c :: p) :: ps

/-- Decimal value of a digit run, as computed by `parseInt` on a string
of digits. -/
def digitsToNat (ds : List Char) : Nat :=
  ds.foldl (fun a c => a * 10 + (c.toNat - '0'.toNat)) 0

/-- Decimal digit character for a value below ten. -/
def natDigitChar (n : Nat) : Char :=
  if n = 0 then '0' else if n = 1 then '1' else if n = 2 then '2'
  else if n = 3 then '3' else if n = 4 then '4' else if n = 5 then '5'
  else if n = 6 then '6' else if n = 7 then '7' else if n = 8 then '8'
  else if n = 9 then '9' else '*'

/-- Fuelled decimal printer; the fuel only needs to exceed the number
being printed. -/
def natToCharsAux : Nat → Nat → List Char → List Char
  | 0, _, acc => acc
  | fuel + 1, n, acc =>
    if n < 10 then natDigitChar n :: acc
    else natToCharsAux fuel (n / 10) (natDigitChar (n % 10) :: acc)

/-- Decimal digit list of a natural number. -/
def natToChars (n : Nat) : List Char := natToCharsAux (n + 1) n []

/-- Decimal string of a natural number, embedding the JS template
interpolation of a non-negative integer. -/
def natToString (n : Nat) : String := ⟨natToChars n⟩

/-- First-match association-list lookup, embedding JS property access
on an object used as a string-keyed map. -/
def jsLookup {α : Type} (k : String) : List (String × α) → Option α
  | [] => none
  | (k', v) :: rest => if k' = k then some v else jsLookup k rest

/-- In-place update or append, embedding JS property assignment on an
object used as a string-keyed map. -/
def setAssoc {α : Type} (k : String) (v : α) : List (String × α) → List (String × α)
  | [] => [(k, v)]
  | (k', v') :: rest => if k' = k then (k, v) :: rest else (k', v') :: setAssoc k v rest

/-- Leading digit run of a string, embedding `key.match(/^(\d+)/)`:
`some` of the digits when the string starts with a digit, else `none`. -/
def leadingDigits (s : String) : Option String :=
  match s.data.takeWhile isDigitCh with
  | [] => none
  | ds => some ⟨ds⟩

/-- JS `Math.round`: round half toward positive infinity. -/
def jsRound (x : ℚ) : ℚ := ((round x : ℤ) : ℚ)

end SupplierTool

namespace SupplierTool.CsvParser

/-- Option of an answer scale: canonical value and free-text label
(`CriterionOption` in `csvParser.ts`). -/
structure CriterionOption where
  value : ℚ
  label : String
deriving DecidableEq, Repr

/-- Question definition (`CriterionDefinition` in `csvParser.ts`).
The priority is kept as a plain string because the source merely casts
the upper-cased text. -/
structure CriterionDefinition where
  category : String
  subCategory : String
  priority : String
  question : String
  options : List CriterionOption
  maxScore : ℚ
deriving DecidableEq, Repr

/-- Scale normalization of `csvParser.ts` (`normalizeScore`): maps a raw
value from a `1..oldMax` scale onto `1..4`.  Note the `oldMax = 4` branch
returns the raw value unclamped. -/
def normalizeScore (oldValue oldMax : ℚ) : ℚ :=
  if oldValue < 1 ∨ oldMax < 1 then 1
  else if oldMax = 4 then oldValue
  else if oldMax = 3 then max 1 (min 4 (jsRound (1 + (oldValue - 1) * (3 / 2))))
  else if oldMax = 5 then max 1 (min 4 (jsRound (1 + (oldValue - 1) * (3 / 4))))
  else if oldMax ≤ 1 then 1
  else max 1 (min 4 (jsRound (1 + (oldValue - 1) * (3 / (oldMax - 1)))))

/-! Scanner for the single-line guide regex
`/(\d+)\s*=\s*([^=]+?)(?=\s*\d+\s*=|$)/g`, embedded character by
character with JS backtracking semantics: greedy digits, greedy spaces,
a literal `=`, greedy spaces (backtracked from longest to shortest),
then a lazy shortest non-`=` label whose end satisfies the lookahead
(spaces, digits, spaces, `=`) or is the end of input. -/

/-- Lookahead `(?=\s*\d+\s*=|$)` at a position. -/
def lookaheadNextOpt (cs : List Char) : Bool :=
  match cs with
  | [] => true
  | _ =>
    let r := cs.dropWhile isSpaceCh
    let ds := r.takeWhile isDigitCh
    if ds.isEmpty then false
    else
      match (r.drop ds.length).dropWhile isSpaceCh with
      | '=' :: _ => true
      | _ => false

/-- Lazy label search: the shortest non-empty run of non-`=` characters
after which the lookahead holds; returns the label and the rest. -/
def findLabel (taken : List Char) : List Char → Option (List Char × List Char)
  | [] => none
  | c :: rs =>
    if c = '=' then none
    else if lookaheadNextOpt rs then some (taken ++ [c], rs)
    else findLabel (taken ++ [c]) rs

/-- Space backtracking after the `=`: try consuming `k` leading spaces,
longest first, before the lazy label. -/
def matchAfterEqAux (rest : List Char) : Nat → Option (List Char × List Char)
  | 0 => findLabel [] rest
  | k + 1 =>
    match findLabel [] (rest.drop (k + 1)) with
    | some r => some r
    | none => matchAfterEqAux rest k

/-- Match of `\s*([^=]+?)(?=...)` after the `=` sign. -/
def matchAfterEq (rest : List Char) : Option (List Char × List Char) :=
  matchAfterEqAux rest ((rest.takeWhile isSpaceCh).length)

/-- Match of the whole pattern at the current position: digits, spaces,
`=`, then `matchAfterEq`; returns `(value, raw label)` and the rest. -/
def matchHere (cs : List Char) : Option ((Nat × List Char) × List Char) :=
  match cs.takeWhile isDigitCh with
  | [] => none
  | ds =>
    let rest := cs.drop ds.length
    match (rest.dropWhile isSpaceCh) with
    | '=' :: rest3 =>
      match matchAfterEq rest3 with
      | some (lab, rem) => some ((digitsToNat ds, lab), rem)
      | none => none
    | _ => none

/-- Global `exec` loop: leftmost match, then continue after it. -/
def scanAux : Nat → List Char → List (Nat × List Char)
  | 0, _ => []
  | _ + 1, [] => []
  | fuel + 1, c :: cs =>
    match matchHere (c :: cs) with
    | some (p, rem) => p :: scanAux fuel rem
    | none => scanAux fuel cs

/-- All matches of the single-line pattern over a line. -/
def scanLine (cs : List Char) : List (Nat × List Char) := scanAux cs.length cs

/-- Label post-processing of the single-line branch: trim, strip one
trailing comma (`label.replace(/,\s*$/, '')` on a trimmed string), trim. -/
def cleanLabel (lab : List Char) : String :=
  let t := jsTrimList lab
  let t2 := match t.reverse with
    | ',' :: r => r.reverse
    | _ => t
  ⟨jsTrimList t2⟩

/-- Per-line match `^(\d+)\s*=\s*(.+)$` of the multi-line branch,
applied to an already-trimmed line; the captured label is trimmed. -/
def lineMatch (cs : List Char) : Option (Nat × String) :=
  match cs.takeWhile isDigitCh with
  | [] => none
  | ds =>
    match ((cs.drop ds.length).dropWhile isSpaceCh) with
    | '=' :: rest3 =>
      if rest3.isEmpty then none
      else some (digitsToNat ds, ⟨jsTrimList rest3⟩)
    | _ => none

/-- Separator test for the fallback split `/,\s*(?=\d+\s*=)/`: a comma
whose following spaces are succeeded by digits and an `=`. -/
def isFallbackSep (cs : List Char) : Bool :=
  let r := cs.dropWhile isSpaceCh
  let ds := r.takeWhile isDigitCh
  if ds.isEmpty then false
  else
    match (r.drop ds.length).dropWhile isSpaceCh with
    | '=' :: _ => true
    | _ => false

/-- Fallback split on `/,\s*(?=\d+\s*=)/`: the separator consumes the
comma and the following spaces. -/
def splitFallbackAux : Nat → List Char → List Char → List (List Char)
  | 0, cur, _ => [cur.reverse]
  | _ + 1, cur, [] => [cur.reverse]
  | fuel + 1, cur, c :: cs =>
    if c = ',' && isFallbackSep cs then
      cur.reverse :: splitFallbackAux fuel [] (cs.dropWhile isSpaceCh)
    else
      splitFallbackAux fuel (c :: cur) cs

/-- Raw option extraction of `parseScoringGuide` in `csvParser.ts`
before normalization: multi-line per-line matches, or the single-line
scan, or the fallback comma split. -/
def parseRawOptions (guide : String) : List (Nat × String) :=
  let lines := ((splitOnChar '\n' guide.data).map jsTrimList).filter (fun l => !l.isEmpty)
  if lines.length > 1 then
    lines.foldl (fun acc l =>
      match lineMatch l with
      | some (v, lab) => acc ++ [(v, lab)]
      | none => acc) []
  else
    match lines with
    | [line] =>
      let found := (scanLine line).foldl (fun acc m =>
        let lab := cleanLabel m.2
        if lab ≠ "" ∧ m.1 > 0 then acc ++ [(m.1, lab)] else acc) []
      if found.length > 0 then found
      else
        let parts := ((splitFallbackAux line.length [] line).map jsTrimList).filter
          (fun l => !l.isEmpty)
        parts.foldl (fun acc p =>
          match lineMatch p with
          | some (v, lab) => if v > 0 ∧ lab ≠ "" then acc ++ [(v, lab)] else acc
          | none => acc) []
    | _ => []

/-- Stable insertion into a list sorted descending by a rational key,
matching the behavior of the stable JS `Array.prototype.sort` with
comparator `(a, b) => key(b) - key(a)`. -/
def insertDescBy {α : Type} (key : α → ℚ) (x : α) : List α → List α
  | [] => [x]
  | y :: ys => if key x < key y then y :: insertDescBy key x ys else x :: y :: ys

/-- Stable descending sort by a rational key. -/
def sortDescBy {α : Type} (key : α → ℚ) : List α → List α
  | [] => []
  | x :: xs => insertDescBy key x (sortDescBy key xs)

/-- One step of the duplicate-removal `Map` fold: keep the entry with
the strictly greater original value for each normalized value. -/
def dedupStep (acc : List (ℚ × String × Nat)) (o : Nat × ℚ × String) :
    List (ℚ × String × Nat) :=
  match acc.find? (fun e => e.1 = o.2.1) with
  | none => acc ++ [(o.2.1, o.2.2, o.1)]
  | some e =>
    if o.1 > e.2.2 then
      acc.map (fun e' => if e'.1 = o.2.1 then (o.2.1, o.2.2, o.1) else e')
    else acc

/-- Normalization tail of `parseScoringGuide`: sort raw options
descending, take the maximum as `oldMax`, rescale every option with
`normalizeScore`, collapse duplicates keeping the higher raw value's
label, and sort the result descending by canonical value. -/
def normalizeOptions (options : List (Nat × String)) : List CriterionOption :=
  match sortDescBy (fun o => (o.1 : ℚ)) options with
  | [] => []
  | sorted@(top :: _) =>
    let oldMax := top.1
    let withOriginal := sorted.map (fun o =>
      (o.1, normalizeScore (o.1 : ℚ) (oldMax : ℚ), o.2))
    let uniqueMap := withOriginal.foldl dedupStep []
    sortDescBy (fun o => o.value) (uniqueMap.map (fun e => ⟨e.1, e.2.1⟩))

/-- Full scoring-guide parser of `csvParser.ts` (`parseScoringGuide`):
raw extraction followed by normalization and deduplication. -/
def parseScoringGuide (guide : String) : List CriterionOption :=
  normalizeOptions (parseRawOptions guide)

/-- Category id extraction (`extractCategoryId`): the leading digits
when they are followed by a literal dot, else the empty string. -/
def extractCategoryId (category : String) : String :=
  let ds := category.data.takeWhile isDigitCh
  if ds.isEmpty then ""
  else
    match category.data.drop ds.length with
    | '.' :: _ => ⟨ds⟩
    | _ => ""

/-- Category name extraction (`extractCategoryName`): strip a leading
`<digits>.<spaces>` run when present, then trim. -/
def extractCategoryName (category : String) : String :=
  let ds := category.data.takeWhile isDigitCh
  if ds.isEmpty then jsTrim category
  else
    match category.data.drop ds.length with
    | '.' :: rest => ⟨jsTrimList (rest.dropWhile isSpaceCh)⟩
    | _ => jsTrim category

/-- Search for the first `/(\d+)([a-z])/i` match: a digit run directly
followed by an ASCII letter; returns the digits and the letter. -/
def findDLAux : Nat → List Char → Option (List Char × Char)
  | 0, _ => none
  | _ + 1, [] => none
  | fuel + 1, c :: cs =>
    if isDigitCh c then
      let run := (c :: cs).takeWhile isDigitCh
      match (c :: cs).dropWhile isDigitCh with
      | l :: rest =>
        if isAsciiLetterCh l then some (run, l) else findDLAux fuel (l :: rest)
      | [] => none
    else findDLAux fuel cs

/-- First digits-letter pattern of a subcategory string. -/
def findDigitLetter (s : String) : Option (List Char × Char) :=
  findDLAux s.data.length s.data

/-- Identifier generation (`generateCriterionId` in `csvParser.ts`).
When the subcategory contains a digits-letter pattern, the id is the
category id (or, when that is empty, the matched digits) followed by
the lower-cased letter, a dot, and the question index; otherwise the
id is built from the sanitized subcategory. -/
def generateCriterionId (categoryId : String) (questionIndex : Nat)
    (subCategory : String) : String :=
  match findDigitLetter subCategory with
  | some (ds, l) =>
    let subNum := if categoryId = "" then (⟨ds⟩ : String) else categoryId
    subNum ++ (⟨[jsToLower l]⟩ : String) ++ "." ++ natToString questionIndex
  | none =>
    let cleanSub :=
      match (subCategory.data.filter isAlphanumCh).take 10 with
      | [] => "q"
      | t => (⟨t⟩ : String)
    let pfx := if categoryId = "" then "" else categoryId ++ "."
    pfx ++ cleanSub ++ "." ++ natToString questionIndex

/-- One already-decoded CSV row as consumed by `loadQuestions`; absent
fields are the empty string (falsy, as in the source). -/
structure QuestionRow where
  CATEGORY : String
  SUBCATEGORY : String
  PRIORITY : String
  QUESTION : String
  GUIDE : String
deriving DecidableEq, Repr

/-- Accumulator state of the `loadQuestions` row loop. -/
structure LoadState where
  criteria : List (String × CriterionDefinition)
  categoryCounts : List (String × Nat)
  subCategoryCounts : List (String × Nat)
  skippedCount : Nat
  skippedReasons : List (String × Nat)
deriving DecidableEq, Repr

/-- The default four-point scale substituted when nothing parses. -/
def defaultOptions : List CriterionOption :=
  [⟨4, "Excellent"⟩, ⟨3, "Good"⟩, ⟨2, "Fair"⟩, ⟨1, "Poor"⟩]

/-- Skip helper: count the row and classify the reason. -/
def skipRow (st : LoadState) (reason : String) : LoadState :=
  { st with
    skippedCount := st.skippedCount + 1
    skippedReasons :=
      setAssoc reason ((jsLookup reason st.skippedReasons).getD 0 + 1) st.skippedReasons }

/-- Options retained for one row: the parsed guide (or the default
scale when nothing parses) filtered to values inside `[1, 4]`. -/
def rowValidOptions (row : QuestionRow) : List CriterionOption :=
  let options :=
    match parseScoringGuide row.GUIDE with
    | [] => defaultOptions
    | parsed => parsed
  options.filter fun o => decide (1 ≤ o.value) && decide (o.value ≤ 4)

/-- Loading branch of one row: bump the per-subcategory and
per-category counters, generate the identifier and store the
definition. -/
def loadRow (st : LoadState) (row : QuestionRow) (categoryId : String)
    (validOptions : List CriterionOption) : LoadState :=
  let subCategory := row.SUBCATEGORY
  let subCategoryKey := categoryId ++ "-" ++ subCategory
  let n := (jsLookup subCategoryKey st.subCategoryCounts).getD 0 + 1
  let catN := (jsLookup categoryId st.categoryCounts).getD 0 + 1
  let criterionId := generateCriterionId categoryId n subCategory
  { criteria := setAssoc criterionId
      { category := extractCategoryName row.CATEGORY
        subCategory := subCategory
        priority := ⟨(if row.PRIORITY = "" then "MEDIUM" else row.PRIORITY).data.map jsToUpper⟩
        question := jsTrim row.QUESTION
        options := validOptions
        maxScore := 4 } st.criteria
    categoryCounts := setAssoc categoryId catN st.categoryCounts
    subCategoryCounts := setAssoc subCategoryKey n st.subCategoryCounts
    skippedCount := st.skippedCount
    skippedReasons := st.skippedReasons }

/-- One iteration of the `results.data.forEach` body of `loadQuestions`:
skip on missing category/question text, missing category id, or no
valid options; otherwise load the row. -/
def processRow (st : LoadState) (row : QuestionRow) : LoadState :=
  let hasCategory := (jsTrim row.CATEGORY).length > 0
  let hasQuestion := (jsTrim row.QUESTION).length > 0
  if ¬hasCategory then skipRow st "No CATEGORY"
  else if ¬hasQuestion then skipRow st "No KEY EVALUATION QUESTIONS"
  else
    let categoryId := extractCategoryId row.CATEGORY
    if categoryId = "" then skipRow st "No category ID"
    else
      let validOptions := rowValidOptions row
      if validOptions.isEmpty then skipRow st "No valid options"
      else loadRow st row categoryId validOptions

/-- The whole row loop of `loadQuestions` starting from empty state. -/
def processRows (rows : List QuestionRow) : LoadState :=
  rows.foldl processRow ⟨[], [], [], 0, []⟩

/-- Outcome of one `loadQuestions` pass over already-parsed rows.  The
`complete` callback of the source resolves the accumulated criteria map
unconditionally; the promise is rejected only when the CSV parser
itself signals an error or the fetch throws, which are external I/O
events independent of the row contents. -/
def loadQuestionsOutcome (rows : List QuestionRow) :
    Except String (List (String × CriterionDefinition)) :=
  Except.ok (processRows rows).criteria

end SupplierTool.CsvParser

namespace SupplierTool.ScoreNormalizer

/-- Migration-time scale normalization (`normalizeScore` in
`scoreNormalizer.ts`): `null` passes through; a `1..4` input is
clamped; `1..3` and `1..5` inputs are rescaled and clamped.  The
general branch is modelled only for `oldMax ≠ 1` (at `oldMax = 1` the
source divides by zero in floating point, which has no rational
counterpart). -/
def normalizeScore (oldValue : Option ℚ) (oldMax : ℚ) : Option ℚ :=
  match oldValue with
  | none => none
  | some v =>
    if oldMax = 4 then some (max 1 (min 4 v))
    else if oldMax = 3 then some (max 1 (min 4 (jsRound (1 + (v - 1) * (3 / 2)))))
    else if oldMax = 5 then some (max 1 (min 4 (jsRound (1 + (v - 1) * (3 / 4)))))
    else some (max 1 (min 4 (jsRound (1 + (v - 1) * (3 / (oldMax - 1))))))

end SupplierTool.ScoreNormalizer

namespace SupplierTool.Scoring

open SupplierTool.CsvParser

/-- Validity filter of `calculateTotalScore` in `scoring.ts`: a present
score within `[1, maxScore]` of its own definition, `[1, 4]` when the
definition is unknown. -/
def scoreIsValid (key : String) (v : Option ℚ)
    (criteria : Option (List (String × CriterionDefinition))) : Bool :=
  match v with
  | none => false
  | some s =>
    match criteria with
    | some cs =>
      match jsLookup key cs with
      | some cd => decide (1 ≤ s) && decide (s ≤ cd.maxScore)
      | none => decide (1 ≤ s) && decide (s ≤ 4)
    | none => decide (1 ≤ s) && decide (s ≤ 4)

/-- The list of scores passing `scoreIsValid`, in entry order. -/
def validScores (scores : List (String × Option ℚ))
    (criteria : Option (List (String × CriterionDefinition))) : List ℚ :=
  (scores.filter fun kv => scoreIsValid kv.1 kv.2 criteria).filterMap Prod.snd

/-- Simple average of all valid scores (`calculateTotalScore` in
`scoring.ts`); `0` when no score is valid. -/
def calculateTotalScore (scores : List (String × Option ℚ))
    (criteria : Option (List (String × CriterionDefinition))) : ℚ :=
  let vs := validScores scores criteria
  if vs.length = 0 then 0 else vs.sum / vs.length

/-- Category-membership test on a criterion definition: leading digits
of its category field compared with the requested id. -/
def criteriaCategoryMatch (key categoryId : String)
    (criteria : Option (List (String × CriterionDefinition))) : Bool :=
  match criteria with
  | none => false
  | some cs =>
    match jsLookup key cs with
    | none => false
    | some cd =>
      match leadingDigits cd.category with
      | some d => d = categoryId
      | none => false

/-- Entry filter of `getCategoryScore` in `scoring.ts`: non-null score
whose key's leading digits equal the category id, or whose definition's
category field has those leading digits. -/
def scoreMatchesCategory (key : String) (v : Option ℚ) (categoryId : String)
    (criteria : Option (List (String × CriterionDefinition))) : Bool :=
  match v with
  | none => false
  | some _ =>
    match leadingDigits key with
    | some d => if d = categoryId then true else criteriaCategoryMatch key categoryId criteria
    | none => criteriaCategoryMatch key categoryId criteria

/-- The scores matched to one category by `getCategoryScore`, in entry
order. -/
def categoryVals (scores : List (String × Option ℚ)) (categoryId : String)
    (criteria : Option (List (String × CriterionDefinition))) : List ℚ :=
  (scores.filter fun kv =>
    scoreMatchesCategory kv.1 kv.2 categoryId criteria).filterMap Prod.snd

/-- Average of the scores matched to one category (`getCategoryScore` in
`scoring.ts`); `0` when no entry matches. -/
def getCategoryScore (scores : List (String × Option ℚ)) (categoryId : String)
    (criteria : Option (List (String × CriterionDefinition))) : ℚ :=
  let vals := categoryVals scores categoryId criteria
  if vals.length = 0 then 0 else vals.sum / (vals.length : ℚ)

/-- Weighted score (`calculateWeightedScore` in `scoring.ts`): folds the
weight map, accumulating `score × weight` and `weight` only for
categories whose score is positive, then divides; `0` when the
accumulated weight is not positive. -/
def calculateWeightedScore (scores : List (String × Option ℚ))
    (weights : List (String × ℚ))
    (criteria : Option (List (String × CriterionDefinition))) : ℚ :=
  let acc := weights.foldl (fun (acc : ℚ × ℚ) kv =>
    let cs := getCategoryScore scores kv.1 criteria
    if 0 < cs then (acc.1 + cs * kv.2, acc.2 + kv.2) else acc) (0, 0)
  if 0 < acc.2 then acc.1 / acc.2 else 0

/-- Result record of `calculateAllScores` in `scoring.ts`. -/
structure ScoreCalculation where
  totalScore : ℚ
  weightedScore : ℚ
  categoryScores : List (String × ℚ)
  weightedCategoryScores : List (String × ℚ)
deriving DecidableEq, Repr

/-- Full score computation (`calculateAllScores` in `scoring.ts`): per
weight-map key, the category score and its weighted variant, plus the
total and weighted scores. -/
def calculateAllScores (scores : List (String × Option ℚ))
    (weights : List (String × ℚ))
    (criteria : Option (List (String × CriterionDefinition))) : ScoreCalculation :=
  { categoryScores := weights.map fun kv => (kv.1, getCategoryScore scores kv.1 criteria)
    weightedCategoryScores := weights.map fun kv =>
      (kv.1, getCategoryScore scores kv.1 criteria * kv.2)
    totalScore := calculateTotalScore scores criteria
    weightedScore := calculateWeightedScore scores weights criteria }

/-- Weight normalization (`normalizeWeights` in `scoring.ts`): each
weight divided by the total, or the input unchanged when the total is
exactly zero. -/
def normalizeWeights (weights : List (String × ℚ)) : List (String × ℚ) :=
  let total := (weights.map Prod.snd).sum
  if total = 0 then weights
  else weights.map fun kv => (kv.1, kv.2 / total)

end SupplierTool.Scoring

namespace SupplierTool

open SupplierTool.CsvParser SupplierTool.Scoring

/-- Clamped values stay in the canonical band. -/
theorem clamp_mem_band (x : ℚ) : 1 ≤ max 1 (min 4 x) ∧ max 1 (min 4 x) ≤ 4 :=
  ⟨le_max_left 1 _, max_le (by norm_num) (min_le_left 4 x)⟩

end SupplierTool

section ClaimC4

open SupplierTool SupplierTool.CsvParser

/-- C4 counterexample: the loader's `normalizeScore` does not clamp on
the `oldMax = 4` branch, so a raw value of `7` on a 4-point scale is
returned as `7`, outside `[1, 4]`. -/
theorem normalizeScore_seven_on_four_scale :
    CsvParser.normalizeScore 7 4 = 7 ∧ ¬ CsvParser.normalizeScore 7 4 ≤ 4 := by
  norm_num [CsvParser.normalizeScore]

/-- C4 (amended): the loader's `normalizeScore` returns the defensive
floor `1` when either input is below `1`; on the `oldMax = 4` branch it
returns the raw value unchanged (and hence unclamped); on every other
scale with inputs at least `1` the result is clamped into `[1, 4]`; and
the migration normalizer of `scoreNormalizer.ts` stays within `[1, 4]`
for every value on the `3`, `4`, and `5`-point scales. -/
theorem normalizeScore_band (v m : ℚ) :
    ((v < 1 ∨ m < 1) → CsvParser.normalizeScore v m = 1) ∧
    (1 ≤ v → m = 4 → CsvParser.normalizeScore v m = v) ∧
    (1 ≤ v → 1 ≤ m → m ≠ 4 →
      1 ≤ CsvParser.normalizeScore v m ∧ CsvParser.normalizeScore v m ≤ 4) ∧
    ((m = 3 ∨ m = 4 ∨ m = 5) →
      ∃ r, ScoreNormalizer.normalizeScore (some v) m = some r ∧ 1 ≤ r ∧ r ≤ 4) := by
  refine ⟨?_, ?_, ?_, ?_⟩
  · intro h
    simp [CsvParser.normalizeScore, h]
  · intro hv hm
    subst hm
    have hnot : ¬(v < 1 ∨ (4:ℚ) < 1) := by push_neg; exact ⟨hv, by norm_num⟩
    unfold CsvParser.normalizeScore
    rw [if_neg hnot, if_pos rfl]
  · intro hv hm hne
    have hnot : ¬(v < 1 ∨ m < 1) := by push_neg; exact ⟨hv, hm⟩
    unfold CsvParser.normalizeScore
    rw [if_neg hnot, if_neg hne]
    split
    · exact clamp_mem_band _
    · split
      · exact clamp_mem_band _
      · split
        · norm_num
        · exact clamp_mem_band _
  · intro hm
    rcases hm with hm | hm | hm <;> subst hm
    · refine ⟨max 1 (min 4 (jsRound (1 + (v - 1) * (3 / 2)))), ?_, clamp_mem_band _⟩
      norm_num [ScoreNormalizer.normalizeScore]
    · refine ⟨max 1 (min 4 v), ?_, clamp_mem_band _⟩
      norm_num [ScoreNormalizer.normalizeScore]
    · refine ⟨max 1 (min 4 (jsRound (1 + (v - 1) * (3 / 4)))), ?_, clamp_mem_band _⟩
      norm_num [ScoreNormalizer.normalizeScore]

/-- C4 witness: the amended statement at concrete inputs. -/
theorem normalizeScore_band_witness :
    CsvParser.normalizeScore (1/2) 5 = 1 ∧
    CsvParser.normalizeScore 7 4 = 7 ∧
    (1 ≤ CsvParser.normalizeScore 2 5 ∧ CsvParser.normalizeScore 2 5 ≤ 4) ∧
    (∃ r, ScoreNormalizer.normalizeScore (some 9) 3 = some r ∧ 1 ≤ r ∧ r ≤ 4) :=
  ⟨(normalizeScore_band (1/2) 5).1 (Or.inl (by norm_num)),
   (normalizeScore_band 7 4).2.1 (by norm_num) rfl,
   (normalizeScore_band 2 5).2.2.1 (by norm_num) (by norm_num) (by norm_num),
   (normalizeScore_band 9 3).2.2.2 (Or.inl rfl)⟩

end ClaimC4

section ClaimC8

open SupplierTool SupplierTool.Scoring

/-- Sum of the normalized weight values: the original sum divided by
the total. -/
theorem sum_map_div (l : List (String × ℚ)) (t : ℚ) :
    ((l.map fun kv => (kv.1, kv.2 / t)).map Prod.snd).sum = (l.map Prod.snd).sum / t := by
  induction l with
  | nil => simp
  | cons a l ih =>
    simp only [List.map_cons, List.sum_cons, add_div, ih]

/-- A weight map whose values already sum to one is returned unchanged
by `normalizeWeights`. -/
theorem normalizeWeights_of_sum_one (u : List (String × ℚ))
    (h : (u.map Prod.snd).sum = 1) : normalizeWeights u = u := by
  simp [normalizeWeights, h]

/-- C8: `normalizeWeights` is idempotent, and returns the input map
unchanged when the weight sum is exactly zero. -/
theorem normalizeWeights_idempotent (w : List (String × ℚ)) :
    normalizeWeights (normalizeWeights w) = normalizeWeights w ∧
    ((w.map Prod.snd).sum = 0 → normalizeWeights w = w) := by
  constructor
  · by_cases hT : (w.map Prod.snd).sum = 0
    · simp [normalizeWeights, hT]
    · have h1 : normalizeWeights w = w.map fun kv => (kv.1, kv.2 / (w.map Prod.snd).sum) := by
        simp [normalizeWeights, hT]
      have hsum : ((normalizeWeights w).map Prod.snd).sum = 1 := by
        rw [h1, sum_map_div, div_self hT]
      exact normalizeWeights_of_sum_one _ hsum
  · intro hT
    simp [normalizeWeights, hT]

/-- C8 witness: a zero-sum map is returned unchanged, and normalization
is idempotent there. -/
theorem normalizeWeights_idempotent_witness :
    normalizeWeights (normalizeWeights [("1", 0)]) = normalizeWeights [("1", 0)] ∧
    normalizeWeights [("1", 0)] = [("1", 0)] :=
  ⟨(normalizeWeights_idempotent [("1", 0)]).1,
   (normalizeWeights_idempotent [("1", 0)]).2 (by simp)⟩

end ClaimC8

section ClaimC5

open SupplierTool SupplierTool.CsvParser

/-- C5: the single-line guide
`"1=No, 2=Limited, 3=Partial, 4=Fully repairable"` parses to exactly
four options with values `{1, 2, 3, 4}` and the labels `"No"`,
`"Limited"`, `"Partial"`, `"Fully repairable"`; and because a label
extends until the next `<int> =` token or the end of the string, a
comma embedded inside a label does not fragment it, as shown by the
companion string whose first label is `"No remediation, only
disposal"`. -/
theorem parseScoringGuide_singleline :
    parseScoringGuide "1=No, 2=Limited, 3=Partial, 4=Fully repairable" =
      [⟨4, "Fully repairable"⟩, ⟨3, "Partial"⟩, ⟨2, "Limited"⟩, ⟨1, "No"⟩] ∧
    parseScoringGuide "1=No remediation, only disposal, 2=Limited, 3=Partial, 4=Fully repairable" =
      [⟨4, "Fully repairable"⟩, ⟨3, "Partial"⟩, ⟨2, "Limited"⟩,
        ⟨1, "No remediation, only disposal"⟩] := by
  have e1 : CsvParser.normalizeScore (1:ℚ) 4 = 1 := by norm_num [CsvParser.normalizeScore]
  have e2 : CsvParser.normalizeScore (2:ℚ) 4 = 2 := by norm_num [CsvParser.normalizeScore]
  have e3 : CsvParser.normalizeScore (3:ℚ) 4 = 3 := by norm_num [CsvParser.normalizeScore]
  have e4 : CsvParser.normalizeScore (4:ℚ) 4 = 4 := by norm_num [CsvParser.normalizeScore]
  have r1 : parseRawOptions "1=No, 2=Limited, 3=Partial, 4=Fully repairable" =
      [(1, "No"), (2, "Limited"), (3, "Partial"), (4, "Fully repairable")] := by decide
  have r2 : parseRawOptions
      "1=No remediation, only disposal, 2=Limited, 3=Partial, 4=Fully repairable" =
      [(1, "No remediation, only disposal"), (2, "Limited"), (3, "Partial"),
        (4, "Fully repairable")] := by decide
  constructor
  · rw [parseScoringGuide, r1]
    simp [normalizeOptions, sortDescBy, insertDescBy, dedupStep, e1, e2, e3, e4]
    norm_num
  · rw [parseScoringGuide, r2]
    simp [normalizeOptions, sortDescBy, insertDescBy, dedupStep, e1, e2, e3, e4]
    norm_num

end ClaimC5

section ClaimC1

open SupplierTool SupplierTool.Scoring

/-- The categories of the weight map qualifying for the weighted score:
those whose category score is strictly positive. -/
theorem calculateWeightedScore_foldl (scores : List (String × Option ℚ))
    (criteria : Option (List (String × CsvParser.CriterionDefinition)))
    (l : List (String × ℚ)) (a b : ℚ) :
    l.foldl (fun (acc : ℚ × ℚ) kv =>
        let cs := getCategoryScore scores kv.1 criteria
        if 0 < cs then (acc.1 + cs * kv.2, acc.2 + kv.2) else acc) (a, b) =
      (a + ((l.filter fun kv =>
          decide (0 < getCategoryScore scores kv.1 criteria)).map
            fun kv => getCategoryScore scores kv.1 criteria * kv.2).sum,
       b + ((l.filter fun kv =>
          decide (0 < getCategoryScore scores kv.1 criteria)).map Prod.snd).sum) := by
  induction l generalizing a b with
  | nil => simp
  | cons kv l ih =>
    by_cases hq : 0 < getCategoryScore scores kv.1 criteria
    · simp only [List.foldl_cons, if_pos hq, ih, List.filter_cons,
        decide_eq_true_eq, hq, if_pos, List.map_cons, List.sum_cons,
        Prod.mk.injEq]
      constructor <;> ring
    · simp only [List.foldl_cons, if_neg hq, ih, List.filter_cons,
        decide_eq_true_eq, hq, if_neg, List.map_cons, List.sum_cons]
      simp [hq]

/-- A list of non-negative rationals with zero sum is all zeros. -/
theorem all_zero_of_sum_zero {l : List ℚ} (h0 : ∀ x ∈ l, 0 ≤ x)
    (hs : l.sum = 0) : ∀ x ∈ l, x = 0 := by
  induction l with
  | nil => simp
  | cons a l ih =>
    have ha : 0 ≤ a := h0 a (by simp)
    have hl : 0 ≤ l.sum := List.sum_nonneg fun x hx => h0 x (by simp [hx])
    have hsum : a + l.sum = 0 := by simpa using hs
    have ha0 : a = 0 := le_antisymm (by linarith) ha
    have hl0 : l.sum = 0 := by linarith
    intro x hx
    rcases List.mem_cons.mp hx with rfl | hx
    · exact ha0
    · exact ih (fun y hy => h0 y (by simp [hy])) hl0 x hx

/-- C1: for non-negative weight maps, `calculateWeightedScore` is the
sum of `categoryScore × weight` divided by the sum of the weights,
taken only over the categories of the weight map whose category score
is strictly positive (so a category with no answered question — score
`0` — contributes to neither sum, and with no qualifying category the
result is `0`, the value of the empty quotient); in particular with
weights `{1 ↦ 0.6, 2 ↦ 0.4}`, category `1` fully answered with average
`4` and category `2` unanswered, the weighted score is `4`. -/
theorem calculateWeightedScore_spec (scores : List (String × Option ℚ))
    (weights : List (String × ℚ))
    (criteria : Option (List (String × CsvParser.CriterionDefinition)))
    (hw : ∀ kv ∈ weights, 0 ≤ kv.2) :
    (calculateWeightedScore scores weights criteria =
      ((weights.filter fun kv =>
          decide (0 < getCategoryScore scores kv.1 criteria)).map
            fun kv => getCategoryScore scores kv.1 criteria * kv.2).sum /
      ((weights.filter fun kv =>
          decide (0 < getCategoryScore scores kv.1 criteria)).map Prod.snd).sum) ∧
    ((weights.filter fun kv =>
        decide (0 < getCategoryScore scores kv.1 criteria)) = [] →
      calculateWeightedScore scores weights criteria = 0) ∧
    calculateWeightedScore [("1.1", some 4), ("1.2", some 4)]
      [("1", 3/5), ("2", 2/5)] none = 4 := by
  have hfold := calculateWeightedScore_foldl scores criteria weights 0 0
  have hmain : calculateWeightedScore scores weights criteria =
      ((weights.filter fun kv =>
          decide (0 < getCategoryScore scores kv.1 criteria)).map
            fun kv => getCategoryScore scores kv.1 criteria * kv.2).sum /
      ((weights.filter fun kv =>
          decide (0 < getCategoryScore scores kv.1 criteria)).map Prod.snd).sum := by
    unfold calculateWeightedScore
    rw [hfold]
    simp only [zero_add]
    set q := weights.filter fun kv =>
      decide (0 < getCategoryScore scores kv.1 criteria) with hq
    by_cases hpos : 0 < (q.map Prod.snd).sum
    · rw [if_pos hpos]
    · rw [if_neg hpos]
      have hnn : ∀ x ∈ q.map Prod.snd, 0 ≤ x := by
        intro x hx
        rcases List.mem_map.mp hx with ⟨kv, hkv, rfl⟩
        exact hw kv (List.mem_of_mem_filter hkv)
      have hz : (q.map Prod.snd).sum = 0 :=
        le_antisymm (not_lt.mp hpos) (List.sum_nonneg hnn)
      have hall := all_zero_of_sum_zero hnn hz
      have hnum : (q.map fun kv =>
          getCategoryScore scores kv.1 criteria * kv.2).sum = 0 := by
        apply List.sum_eq_zero
        intro x hx
        rcases List.mem_map.mp hx with ⟨kv, hkv, rfl⟩
        have : kv.2 = 0 := hall kv.2 (List.mem_map.mpr ⟨kv, hkv, rfl⟩)
        rw [this, mul_zero]
      rw [hnum, hz, zero_div]
  refine ⟨hmain, ?_, ?_⟩
  · intro hempty
    rw [hmain, hempty]
    simp
  · have h1 : categoryVals [("1.1", some 4), ("1.2", some 4)] "1" none = [4, 4] := by decide
    have h2 : categoryVals [("1.1", some 4), ("1.2", some 4)] "2" none = [] := by decide
    have g1 : getCategoryScore [("1.1", some 4), ("1.2", some 4)] "1" none = 4 := by
      simp [getCategoryScore, h1]
    have g2 : getCategoryScore [("1.1", some 4), ("1.2", some 4)] "2" none = 0 := by
      simp [getCategoryScore, h2]
    simp [calculateWeightedScore, g1, g2]

/-- C1 witness: the characterization applied to a concrete non-negative
weight map. -/
theorem calculateWeightedScore_spec_witness :
    calculateWeightedScore [("1.1", some 3)] [("1", 1), ("2", 3)] none =
      ((([("1", (1:ℚ)), ("2", 3)].filter fun kv =>
          decide (0 < getCategoryScore [("1.1", some 3)] kv.1 none)).map
            fun kv => getCategoryScore [("1.1", some 3)] kv.1 none * kv.2).sum /
      (([("1", (1:ℚ)), ("2", 3)].filter fun kv =>
          decide (0 < getCategoryScore [("1.1", some 3)] kv.1 none)).map Prod.snd).sum) :=
  (calculateWeightedScore_spec [("1.1", some 3)] [("1", 1), ("2", 3)] none
    (by decide)).1

end ClaimC1

namespace SupplierTool.Scoring

/-- An entry failing the validity check does not change the valid-score
list. -/
theorem validScores_cons_invalid (scores : List (String × Option ℚ)) (id : String)
    (ov : Option ℚ) (criteria : Option (List (String × CsvParser.CriterionDefinition)))
    (h : scoreIsValid id ov criteria = false) :
    validScores ((id, ov) :: scores) criteria = validScores scores criteria := by
  unfold validScores
  rw [List.filter_cons]
  simp [h]

/-- An entry failing the validity check does not change the total
score. -/
theorem calculateTotalScore_cons_invalid (scores : List (String × Option ℚ)) (id : String)
    (ov : Option ℚ) (criteria : Option (List (String × CsvParser.CriterionDefinition)))
    (h : scoreIsValid id ov criteria = false) :
    calculateTotalScore ((id, ov) :: scores) criteria = calculateTotalScore scores criteria := by
  unfold calculateTotalScore
  rw [validScores_cons_invalid scores id ov criteria h]

/-- An entry not matched to the category does not change the
category value list. -/
theorem categoryVals_cons_nonmatching (scores : List (String × Option ℚ)) (id : String)
    (ov : Option ℚ) (cat : String)
    (criteria : Option (List (String × CsvParser.CriterionDefinition)))
    (h : scoreMatchesCategory id ov cat criteria = false) :
    categoryVals ((id, ov) :: scores) cat criteria = categoryVals scores cat criteria := by
  unfold categoryVals
  rw [List.filter_cons]
  simp [h]

/-- An entry not matched to the category does not change the category
score. -/
theorem getCategoryScore_cons_nonmatching (scores : List (String × Option ℚ)) (id : String)
    (ov : Option ℚ) (cat : String)
    (criteria : Option (List (String × CsvParser.CriterionDefinition)))
    (h : scoreMatchesCategory id ov cat criteria = false) :
    getCategoryScore ((id, ov) :: scores) cat criteria = getCategoryScore scores cat criteria := by
  unfold getCategoryScore
  rw [categoryVals_cons_nonmatching scores id ov cat criteria h]

end SupplierTool.Scoring

section ClaimC3

open SupplierTool SupplierTool.Scoring

/-- C3 counterexample: `getCategoryScore` performs no range check, so a
score of `7` under key `"1.1"` — out of range for the default `[1, 4]`
bound — is included in the category-1 average, which the claim says
should have been `0` (no valid entry). -/
theorem getCategoryScore_includes_out_of_range :
    getCategoryScore [("1.1", some 7)] "1" none = 7 ∧ (7 : ℚ) ≠ 0 := by
  constructor
  · have h : categoryVals [("1.1", some 7)] "1" none = [7] := by decide
    simp [getCategoryScore, h]
  · norm_num

/-- C3 (amended): absent/null scores are excluded both from the total
average and from every category average, and out-of-range scores
(failing the `[1, maxScore]` check of the entry's own definition,
default `[1, 4]`) are excluded from the total average computed by
`calculateTotalScore` — but not from the category averages, where
`getCategoryScore` filters only null entries.  Both aggregations return
`0` when no entry qualifies. -/
theorem aggregation_exclusion (scores : List (String × Option ℚ)) (id : String)
    (v : ℚ) (cat : String)
    (criteria : Option (List (String × CsvParser.CriterionDefinition)))
    (hv : scoreIsValid id (some v) criteria = false) :
    calculateTotalScore ((id, none) :: scores) criteria =
      calculateTotalScore scores criteria ∧
    calculateTotalScore ((id, some v) :: scores) criteria =
      calculateTotalScore scores criteria ∧
    getCategoryScore ((id, none) :: scores) cat criteria =
      getCategoryScore scores cat criteria ∧
    calculateTotalScore [] criteria = 0 ∧
    getCategoryScore [] cat criteria = 0 := by
  refine ⟨?_, ?_, ?_, ?_, ?_⟩
  · exact calculateTotalScore_cons_invalid scores id none criteria rfl
  · exact calculateTotalScore_cons_invalid scores id (some v) criteria hv
  · exact getCategoryScore_cons_nonmatching scores id none cat criteria rfl
  · simp [calculateTotalScore, validScores]
  · simp [getCategoryScore, categoryVals]

/-- C3 witness: the amended statement at a concrete out-of-range entry. -/
theorem aggregation_exclusion_witness :
    calculateTotalScore [("z", none), ("1.1", some 2)] none =
      calculateTotalScore [("1.1", some 2)] none ∧
    calculateTotalScore [("z", some 9), ("1.1", some 2)] none =
      calculateTotalScore [("1.1", some 2)] none ∧
    getCategoryScore [("z", none), ("1.1", some 2)] "1" none =
      getCategoryScore [("1.1", some 2)] "1" none ∧
    calculateTotalScore [] none = 0 ∧
    getCategoryScore [] "1" none = 0 :=
  aggregation_exclusion [("1.1", some 2)] "z" 9 "1" none (by decide)

end ClaimC3

namespace SupplierTool

/-- Mapping a key-preserving function over an association list keeps
the key column. -/
theorem map_fst_map_pair {α : Type} (g : String × ℚ → α) (l : List (String × ℚ)) :
    ((l.map fun kv => (kv.1, g kv)).map Prod.fst) = l.map Prod.fst := by
  induction l with
  | nil => rfl
  | cons kv l ih => simp [ih]

/-- First-match lookup commutes with a key-preserving map. -/
theorem jsLookup_map_pair {α : Type} (g : String × ℚ → α) (l : List (String × ℚ))
    (c : String) (w : ℚ) (h : jsLookup c l = some w) :
    jsLookup c (l.map fun kv => (kv.1, g kv)) = some (g (c, w)) := by
  induction l with
  | nil => simp [jsLookup] at h
  | cons kv l ih =>
    obtain ⟨k, v⟩ := kv
    by_cases hk : k = c
    · subst hk
      simp only [jsLookup, if_pos rfl] at h
      obtain rfl := Option.some.inj h
      simp [List.map_cons, jsLookup]
    · simp only [jsLookup, if_neg hk] at h
      simp only [List.map_cons, jsLookup, if_neg hk]
      exact ih h

/-- Lookup misses every key-preserving image of a list not containing
the key. -/
theorem jsLookup_map_pair_none {α : Type} (g : String × ℚ → α) (l : List (String × ℚ))
    (c : String) (h : c ∉ l.map Prod.fst) :
    jsLookup c (l.map fun kv => (kv.1, g kv)) = none := by
  induction l with
  | nil => rfl
  | cons kv l ih =>
    simp only [List.map_cons, List.mem_cons, not_or] at h
    have hne : ¬kv.1 = c := fun he => h.1 he.symm
    simp only [List.map_cons, jsLookup, if_neg hne, ih h.2]

end SupplierTool

namespace SupplierTool.Scoring

/-- A criterion lookup miss makes the definition-based category match
fail. -/
theorem criteriaCategoryMatch_of_lookup_none (id cat : String)
    (criteria : Option (List (String × CsvParser.CriterionDefinition)))
    (hlk : criteria = none ∨ ∃ cs, criteria = some cs ∧ jsLookup id cs = none) :
    criteriaCategoryMatch id cat criteria = false := by
  rcases hlk with rfl | ⟨cs, rfl, hnone⟩
  · rfl
  · simp [criteriaCategoryMatch, hnone]

/-- Congruence of the weighted-score fold in the score map. -/
theorem weightedScore_foldl_congr (s1 s2 : List (String × Option ℚ))
    (criteria : Option (List (String × CsvParser.CriterionDefinition))) :
    ∀ (l : List (String × ℚ)),
      (∀ kv ∈ l, getCategoryScore s1 kv.1 criteria = getCategoryScore s2 kv.1 criteria) →
      ∀ (a b : ℚ),
      l.foldl (fun (acc : ℚ × ℚ) kv =>
        let cs := getCategoryScore s1 kv.1 criteria
        if 0 < cs then (acc.1 + cs * kv.2, acc.2 + kv.2) else acc) (a, b) =
      l.foldl (fun (acc : ℚ × ℚ) kv =>
        let cs := getCategoryScore s2 kv.1 criteria
        if 0 < cs then (acc.1 + cs * kv.2, acc.2 + kv.2) else acc) (a, b) := by
  intro l
  induction l with
  | nil => intro _ a b; rfl
  | cons kv l ih =>
    intro h a b
    have hl : ∀ kv' ∈ l,
        getCategoryScore s1 kv'.1 criteria = getCategoryScore s2 kv'.1 criteria :=
      fun kv' hkv' => h kv' (by simp [hkv'])
    have hkv := h kv (by simp)
    simp only [List.foldl_cons, hkv]
    split <;> exact ih hl _ _

/-- The weighted score only reads the category scores at the keys of
the weight map. -/
theorem calculateWeightedScore_congr (s1 s2 : List (String × Option ℚ))
    (weights : List (String × ℚ))
    (criteria : Option (List (String × CsvParser.CriterionDefinition)))
    (h : ∀ kv ∈ weights, getCategoryScore s1 kv.1 criteria = getCategoryScore s2 kv.1 criteria) :
    calculateWeightedScore s1 weights criteria = calculateWeightedScore s2 weights criteria := by
  unfold calculateWeightedScore
  rw [weightedScore_foldl_congr s1 s2 criteria weights h 0 0]

/-- A valid entry is prepended to the valid-score list. -/
theorem validScores_cons_valid (scores : List (String × Option ℚ)) (id : String)
    (v : ℚ) (criteria : Option (List (String × CsvParser.CriterionDefinition)))
    (h : scoreIsValid id (some v) criteria = true) :
    validScores ((id, some v) :: scores) criteria = v :: validScores scores criteria := by
  unfold validScores
  rw [List.filter_cons]
  simp [h]

end SupplierTool.Scoring

section ClaimC10

open SupplierTool SupplierTool.Scoring

/-- C10: the category-score and weighted-category-score maps returned
by `calculateAllScores` carry exactly the keys of the weight map, with
`weightedCategoryScores[c] = categoryScores[c] × weights[c]` at each
key; and an answered in-range question whose leading category digits
are absent from the weight map is counted by the total score yet stays
absent from both per-category maps and leaves the weighted score
unchanged. -/
theorem calculateAllScores_keys (scores : List (String × Option ℚ))
    (weights : List (String × ℚ))
    (criteria : Option (List (String × CsvParser.CriterionDefinition)))
    (id d : String) (v : ℚ)
    (hd : leadingDigits id = some d)
    (hdnot : d ∉ weights.map Prod.fst)
    (hlk : criteria = none ∨ ∃ cs, criteria = some cs ∧ jsLookup id cs = none)
    (h1 : 1 ≤ v) (h4 : v ≤ 4) :
    ((calculateAllScores scores weights criteria).categoryScores.map Prod.fst =
      weights.map Prod.fst) ∧
    ((calculateAllScores scores weights criteria).weightedCategoryScores.map Prod.fst =
      weights.map Prod.fst) ∧
    (∀ c w, jsLookup c weights = some w →
      ∃ s, jsLookup c (calculateAllScores scores weights criteria).categoryScores = some s ∧
        jsLookup c (calculateAllScores scores weights criteria).weightedCategoryScores =
          some (s * w)) ∧
    (jsLookup d
      (calculateAllScores ((id, some v) :: scores) weights criteria).categoryScores = none) ∧
    ((calculateAllScores ((id, some v) :: scores) weights criteria).weightedScore =
      (calculateAllScores scores weights criteria).weightedScore) ∧
    ((calculateAllScores ((id, some v) :: scores) weights criteria).totalScore =
      (v + (validScores scores criteria).sum) /
        (((validScores scores criteria).length : ℚ) + 1)) := by
  have hmatchfalse : ∀ c, c ∈ weights.map Prod.fst →
      scoreMatchesCategory id (some v) c criteria = false := by
    intro c hc
    have hdc : ¬(d = c) := fun he => hdnot (he ▸ hc)
    unfold scoreMatchesCategory
    rw [hd]
    simp only [if_neg hdc]
    exact criteriaCategoryMatch_of_lookup_none id c criteria hlk
  refine ⟨?_, ?_, ?_, ?_, ?_, ?_⟩
  · exact map_fst_map_pair _ weights
  · exact map_fst_map_pair _ weights
  · intro c w hw
    exact ⟨getCategoryScore scores c criteria,
      jsLookup_map_pair (fun kv => getCategoryScore scores kv.1 criteria) weights c w hw,
      jsLookup_map_pair (fun kv => getCategoryScore scores kv.1 criteria * kv.2)
        weights c w hw⟩
  · exact jsLookup_map_pair_none _ weights d hdnot
  · show calculateWeightedScore ((id, some v) :: scores) weights criteria =
      calculateWeightedScore scores weights criteria
    apply calculateWeightedScore_congr
    intro kv hkv
    apply getCategoryScore_cons_nonmatching
    exact hmatchfalse kv.1 (List.mem_map.mpr ⟨kv, hkv, rfl⟩)
  · show calculateTotalScore ((id, some v) :: scores) criteria = _
    have hvalid : scoreIsValid id (some v) criteria = true := by
      rcases hlk with rfl | ⟨cs, rfl, hnone⟩
      · simp [scoreIsValid, h1, h4]
      · simp [scoreIsValid, hnone, h1, h4]
    unfold calculateTotalScore
    rw [validScores_cons_valid scores id v criteria hvalid]
    have hlen : ¬((v :: validScores scores criteria).length = 0) := by simp
    rw [if_neg hlen]
    simp only [List.sum_cons, List.length_cons]
    push_cast
    ring_nf

/-- C10 witness: the statement applied to a concrete score map with an
orphan category-3 entry and a two-category weight map. -/
theorem calculateAllScores_keys_witness :
    ((calculateAllScores [("1.1", some 2)] [("1", 1), ("2", 3)] none).categoryScores.map
        Prod.fst = [("1", (1:ℚ)), ("2", 3)].map Prod.fst) ∧
    ((calculateAllScores [("1.1", some 2)] [("1", 1), ("2", 3)] none).weightedCategoryScores.map
        Prod.fst = [("1", (1:ℚ)), ("2", 3)].map Prod.fst) ∧
    (∀ c w, jsLookup c [("1", (1:ℚ)), ("2", 3)] = some w →
      ∃ s, jsLookup c (calculateAllScores [("1.1", some 2)]
            [("1", 1), ("2", 3)] none).categoryScores = some s ∧
        jsLookup c (calculateAllScores [("1.1", some 2)]
            [("1", 1), ("2", 3)] none).weightedCategoryScores = some (s * w)) ∧
    (jsLookup "3" (calculateAllScores [("3.1", some 4), ("1.1", some 2)]
        [("1", 1), ("2", 3)] none).categoryScores = none) ∧
    ((calculateAllScores [("3.1", some 4), ("1.1", some 2)]
        [("1", 1), ("2", 3)] none).weightedScore =
      (calculateAllScores [("1.1", some 2)] [("1", 1), ("2", 3)] none).weightedScore) ∧
    ((calculateAllScores [("3.1", some 4), ("1.1", some 2)]
        [("1", 1), ("2", 3)] none).totalScore =
      (4 + (validScores [("1.1", some 2)] none).sum) /
        (((validScores [("1.1", some 2)] none).length : ℚ) + 1)) :=
  calculateAllScores_keys [("1.1", some 2)] [("1", 1), ("2", 3)] none
    "3.1" "3" 4 (by decide) (by decide) (Or.inl rfl) (by decide) (by decide)

end ClaimC10

namespace SupplierTool

/-- Recursive companion of the fuelled decimal printer, used for
reasoning. -/
def natToCharsRec (n : Nat) : List Char :=
  if n < 10 then [natDigitChar n]
  else natToCharsRec (n / 10) ++ [natDigitChar (n % 10)]
  termination_by n
  decreasing_by exact Nat.div_lt_self (by omega) (by omega)

/-- The fuelled printer agrees with the recursive one whenever the fuel
exceeds the number. -/
theorem natToCharsAux_eq_rec : ∀ (fuel n : Nat), n < fuel → ∀ (acc : List Char),
    natToCharsAux fuel n acc = natToCharsRec n ++ acc := by
  intro fuel
  induction fuel with
  | zero => intro n h; omega
  | succ fuel ih =>
    intro n h acc
    by_cases h10 : n < 10
    · rw [natToCharsAux, if_pos h10, natToCharsRec, if_pos h10]
      rfl
    · rw [natToCharsAux, if_neg h10, natToCharsRec, if_neg h10]
      have hdiv : n / 10 < fuel := by
        have : n / 10 < n := Nat.div_lt_self (by omega) (by omega)
        omega
      rw [ih (n / 10) hdiv]
      simp

/-- The decimal digit characters read back to their value. -/
theorem digitsToNat_natToCharsRec (n : Nat) : digitsToNat (natToCharsRec n) = n := by
  induction n using Nat.strong_induction_on with
  | _ n ih =>
    by_cases h10 : n < 10
    · rw [natToCharsRec, if_pos h10]
      have : ∀ m, m < 10 → digitsToNat [natDigitChar m] = m := by decide
      exact this n h10
    · rw [natToCharsRec, if_neg h10]
      have hlt : n / 10 < n := Nat.div_lt_self (by omega) (by omega)
      have hrec := ih (n / 10) hlt
      unfold digitsToNat at hrec ⊢
      rw [List.foldl_append, hrec]
      have hmod : ∀ m, m < 10 → (natDigitChar m).toNat - '0'.toNat = m := by decide
      simp only [List.foldl_cons, List.foldl_nil]
      rw [hmod (n % 10) (Nat.mod_lt n (by omega))]
      omega

/-- The decimal printer is injective. -/
theorem natToChars_injective {m n : Nat} (h : natToChars m = natToChars n) : m = n := by
  have hm : natToChars m = natToCharsRec m := by
    unfold natToChars
    rw [natToCharsAux_eq_rec (m + 1) m (by omega)]
    simp
  have hn : natToChars n = natToCharsRec n := by
    unfold natToChars
    rw [natToCharsAux_eq_rec (n + 1) n (by omega)]
    simp
  have := congrArg digitsToNat (hm ▸ hn ▸ h)
  rwa [digitsToNat_natToCharsRec, digitsToNat_natToCharsRec] at this

/-- The decimal-string embedding of the JS template interpolation is
injective. -/
theorem natToString_injective {m n : Nat} (h : natToString m = natToString n) : m = n :=
  natToChars_injective (congrArg String.data h)

/-- String concatenation is left-cancellative. -/
theorem string_append_left_cancel {s t u : String} (h : s ++ t = s ++ u) : t = u := by
  have hd := congrArg String.data h
  simp only [String.data_append] at hd
  have hn := List.append_cancel_left hd
  cases t; cases u
  exact congrArg String.mk hn

end SupplierTool

section ClaimC2

open SupplierTool SupplierTool.CsvParser

/-- C2 counterexample: one load pass over two rows with distinct exact
subcategory strings `"1a"` and `"2a"` under category `"1. Materials"`
skips nothing, yet both rows receive the identifier `"1a.1"` (the
letter of the pattern is combined with the category id, not with the
matched digits), so the criteria map retains a single entry. -/
theorem criterionId_collision_across_subcategories :
    generateCriterionId "1" 1 "1a" = generateCriterionId "1" 1 "2a" ∧
    (processRows [⟨"1. Materials", "1a", "HIGH", "Q1", ""⟩,
        ⟨"1. Materials", "2a", "", "Q2", ""⟩]).skippedCount = 0 ∧
    (processRows [⟨"1. Materials", "1a", "HIGH", "Q1", ""⟩,
        ⟨"1. Materials", "2a", "", "Q2", ""⟩]).criteria.map Prod.fst = ["1a.1"] := by
  refine ⟨by decide, by decide, by decide⟩

/-- C2 (amended): identifier uniqueness holds per exact subcategory
key — for a fixed category id and subcategory string, distinct
per-key counter values always produce distinct identifiers — but not
across different subcategory strings, where two loaded rows can
collide (see the counterexample). -/
theorem generateCriterionId_index_injective (categoryId subCategory : String)
    (m n : Nat) (hmn : m ≠ n) :
    generateCriterionId categoryId m subCategory ≠
      generateCriterionId categoryId n subCategory := by
  intro h
  apply hmn
  unfold generateCriterionId at h
  rcases hfd : findDigitLetter subCategory with - | ⟨ds, l⟩
  · rw [hfd] at h
    simp only at h
    rw [String.append_assoc, String.append_assoc, String.append_assoc,
      String.append_assoc] at h
    exact natToString_injective
      (string_append_left_cancel (string_append_left_cancel
        (string_append_left_cancel h)))
  · rw [hfd] at h
    simp only at h
    rw [String.append_assoc, String.append_assoc, String.append_assoc,
      String.append_assoc] at h
    exact natToString_injective
      (string_append_left_cancel (string_append_left_cancel
        (string_append_left_cancel h)))

/-- C2 witness: distinct counter values for the same subcategory key
give distinct identifiers. -/
theorem generateCriterionId_index_injective_witness :
    generateCriterionId "1" 1 "1a" ≠ generateCriterionId "1" 2 "1a" :=
  generateCriterionId_index_injective "1" "1a" 1 2 (by decide)

end ClaimC2

section ClaimC7

open SupplierTool SupplierTool.CsvParser

/-- C7 counterexample: for a row whose subcategory text `"1a"` contains
the digits-letter pattern `1a` but sits under category id `"2"`, the
generated identifier is `"2a.1"` — the category id replaces the
matched digits — not the claimed `"<digits><letter>.<n>" = "1a.1"`. -/
theorem criterionId_uses_categoryId_not_pattern_digits :
    generateCriterionId "2" 1 "1a" = "2a.1" ∧ ("2a.1" : String) ≠ "1a.1" := by
  refine ⟨by decide, by decide⟩

/-- C7 (amended): when the subcategory contains a digits-letter
pattern, the identifier is the category id (not the pattern's digits,
which are used only when the category id is empty) followed by the
lower-cased pattern letter, a dot and the 1-based per-key counter; in
particular a row with category `"2. Operations"` and subcategory
`"2b"`, the 3rd loaded row for that exact subcategory key, receives
identifier `"2b.3"`, the category id `"2"` coinciding with the pattern
digits there. -/
theorem generateCriterionId_pattern_spec (categoryId subCategory : String) (n : Nat)
    (ds : List Char) (l : Char)
    (hfd : findDigitLetter subCategory = some (ds, l)) :
    generateCriterionId categoryId n subCategory =
      (if categoryId = "" then (⟨ds⟩ : String) else categoryId) ++
        (⟨[jsToLower l]⟩ : String) ++ "." ++ natToString n ∧
    (processRows [⟨"2. Operations", "2b", "", "Q1", ""⟩,
        ⟨"2. Operations", "2b", "", "Q2", ""⟩,
        ⟨"2. Operations", "2b", "", "Q3", ""⟩]).criteria.map Prod.fst =
      ["2b.1", "2b.2", "2b.3"] := by
  constructor
  · unfold generateCriterionId
    rw [hfd]
  · decide

/-- C7 witness: the amended formula at category id `"2"`, subcategory
`"2b"` and counter value `3`. -/
theorem generateCriterionId_pattern_spec_witness :
    generateCriterionId "2" 3 "2b" =
      (if ("2" : String) = "" then (⟨['2']⟩ : String) else "2") ++
        (⟨[jsToLower 'b']⟩ : String) ++ "." ++ natToString 3 ∧
    (processRows [⟨"2. Operations", "2b", "", "Q1", ""⟩,
        ⟨"2. Operations", "2b", "", "Q2", ""⟩,
        ⟨"2. Operations", "2b", "", "Q3", ""⟩]).criteria.map Prod.fst =
      ["2b.1", "2b.2", "2b.3"] :=
  generateCriterionId_pattern_spec "2" "2b" 3 ['2'] 'b' (by decide)

end ClaimC7

section ClaimC9

open SupplierTool SupplierTool.CsvParser

/-- Updating one key grows an association list by at most one entry. -/
theorem setAssoc_length_le {α : Type} (k : String) (v : α) (l : List (String × α)) :
    (setAssoc k v l).length ≤ l.length + 1 := by
  induction l with
  | nil => simp [setAssoc]
  | cons kv l ih =>
    unfold setAssoc
    split
    · simp
    · simpa using Nat.succ_le_succ ih

/-- The loading branch adds at most one criterion and no skip. -/
theorem loadRow_bound (st : LoadState) (row : QuestionRow) (categoryId : String)
    (validOptions : List CriterionOption) :
    (loadRow st row categoryId validOptions).criteria.length +
        (loadRow st row categoryId validOptions).skippedCount ≤
      st.criteria.length + st.skippedCount + 1 := by
  unfold loadRow
  dsimp only
  have h := setAssoc_length_le
    (generateCriterionId categoryId
      ((jsLookup (categoryId ++ "-" ++ row.SUBCATEGORY) st.subCategoryCounts).getD 0 + 1)
      row.SUBCATEGORY)
    { category := extractCategoryName row.CATEGORY
      subCategory := row.SUBCATEGORY
      priority := ⟨(if row.PRIORITY = "" then "MEDIUM" else row.PRIORITY).data.map jsToUpper⟩
      question := jsTrim row.QUESTION
      options := validOptions
      maxScore := (4 : ℚ) } st.criteria
  omega

/-- One row adds at most one criterion or one skip. -/
theorem processRow_step_bound (st : LoadState) (row : QuestionRow) :
    (processRow st row).criteria.length + (processRow st row).skippedCount ≤
      st.criteria.length + st.skippedCount + 1 := by
  unfold processRow
  dsimp only
  split
  · simp only [skipRow]; omega
  · split
    · simp only [skipRow]; omega
    · split
      · simp only [skipRow]; omega
      · split
        · simp only [skipRow]; omega
        · exact loadRow_bound st row _ _

/-- C9 (amended): the row pass of `loadQuestions` never signals a
failure: it always resolves with the accumulated criteria map — also
when that map is empty — and each row contributes at most one criterion
or one skip, so the pass is bounded by the row count.  Rejection
happens only when the external fetch or the CSV parser itself errors. -/
theorem loadQuestionsOutcome_always_ok (rows : List QuestionRow) :
    loadQuestionsOutcome rows = Except.ok (processRows rows).criteria ∧
    (processRows rows).criteria.length + (processRows rows).skippedCount ≤ rows.length := by
  refine ⟨rfl, ?_⟩
  unfold processRows
  suffices hgen : ∀ (l : List QuestionRow) (st : LoadState),
      (l.foldl processRow st).criteria.length + (l.foldl processRow st).skippedCount ≤
        st.criteria.length + st.skippedCount + l.length by
    simpa using hgen rows ⟨[], [], [], 0, []⟩
  intro l
  induction l with
  | nil => intro st; simp
  | cons row l ih =>
    intro st
    have h1 := processRow_step_bound st row
    have h2 := ih (processRow st row)
    simp only [List.foldl_cons, List.length_cons]
    omega

/-- C9 counterexample: a pass yielding zero questions — here the empty
row list, or a single row skipped for its blank category — resolves
successfully with an empty criteria map instead of signalling a load
failure. -/
theorem loadQuestions_empty_resolves_ok :
    loadQuestionsOutcome [] = Except.ok [] ∧
    loadQuestionsOutcome [⟨"", "", "", "", ""⟩] = Except.ok [] ∧
    (processRows [⟨"", "", "", "", ""⟩]).skippedCount = 1 := by
  refine ⟨rfl, ?_, by decide⟩
  unfold loadQuestionsOutcome
  have h : (processRows [⟨"", "", "", "", ""⟩]).criteria = [] := by decide
  rw [h]

end ClaimC9

namespace SupplierTool.CsvParser

/-- Stable descending insertion permutes the inserted element in. -/
theorem insertDescBy_perm {α : Type} (key : α → ℚ) (x : α) (l : List α) :
    (insertDescBy key x l).Perm (x :: l) := by
  induction l with
  | nil => exact List.Perm.refl _
  | cons y ys ih =>
    unfold insertDescBy
    split
    · exact ((ih.cons y).trans (List.Perm.swap x y ys))
    · exact List.Perm.refl _

/-- The descending sort is a permutation of its input. -/
theorem sortDescBy_perm {α : Type} (key : α → ℚ) (l : List α) :
    (sortDescBy key l).Perm l := by
  induction l with
  | nil => exact List.Perm.refl _
  | cons x xs ih =>
    exact (insertDescBy_perm key x (sortDescBy key xs)).trans (ih.cons x)

/-- Inserting into a descending-sorted list keeps it sorted. -/
theorem insertDescBy_pairwise {α : Type} (key : α → ℚ) (x : α) (l : List α)
    (h : List.Pairwise (fun a b => key b ≤ key a) l) :
    List.Pairwise (fun a b => key b ≤ key a) (insertDescBy key x l) := by
  induction l with
  | nil => simp [insertDescBy]
  | cons y ys ih =>
    rcases List.pairwise_cons.mp h with ⟨hy, hys⟩
    unfold insertDescBy
    split
    · rename_i hlt
      refine List.pairwise_cons.mpr ⟨?_, ih hys⟩
      intro z hz
      rcases List.mem_cons.mp ((insertDescBy_perm key x ys).mem_iff.mp hz) with rfl | hz2
      · exact le_of_lt hlt
      · exact hy z hz2
    · rename_i hnlt
      refine List.pairwise_cons.mpr ⟨?_, h⟩
      intro z hz
      rcases List.mem_cons.mp hz with rfl | hz
      · exact not_lt.mp hnlt
      · exact le_trans (hy z hz) (not_lt.mp hnlt)

/-- The descending sort is sorted: later elements have no larger key. -/
theorem sortDescBy_pairwise {α : Type} (key : α → ℚ) (l : List α) :
    List.Pairwise (fun a b => key b ≤ key a) (sortDescBy key l) := by
  induction l with
  | nil => exact List.Pairwise.nil
  | cons x xs ih => exact insertDescBy_pairwise key x (sortDescBy key xs) ih

/-- One deduplication step only produces the old entries or the entry
of the processed option. -/
theorem dedupStep_mem (acc : List (ℚ × String × Nat)) (w : Nat × ℚ × String)
    (e : ℚ × String × Nat) (he : e ∈ dedupStep acc w) :
    e ∈ acc ∨ e = (w.2.1, w.2.2, w.1) := by
  unfold dedupStep at he
  cases hf : acc.find? (fun x => x.1 = w.2.1) with
  | none =>
    simp only [hf] at he
    rcases List.mem_append.mp he with h | h
    · exact Or.inl h
    · exact Or.inr (by simpa using h)
  | some ex =>
    simp only [hf] at he
    by_cases hgt : w.1 > ex.2.2
    · rw [if_pos hgt] at he
      rcases List.mem_map.mp he with ⟨e', he', hrepl⟩
      by_cases hk : e'.1 = w.2.1
      · rw [if_pos hk] at hrepl
        exact Or.inr hrepl.symm
      · rw [if_neg hk] at hrepl
        exact Or.inl (hrepl ▸ he')
    · rw [if_neg hgt] at he
      exact Or.inl he

/-- Replacing matching entries in place keeps the key column. -/
theorem replace_map_keys (acc : List (ℚ × String × Nat)) (w : Nat × ℚ × String) :
    ((acc.map fun e' => if e'.1 = w.2.1 then (w.2.1, w.2.2, w.1) else e').map
      Prod.fst) = acc.map Prod.fst := by
  rw [List.map_map]
  apply List.map_congr_left
  intro e' _
  by_cases hk : e'.1 = w.2.1
  · simp [Function.comp, hk]
  · simp [Function.comp, hk]

/-- One deduplication step preserves the key column up to the possible
new key at the end. -/
theorem dedupStep_keys (acc : List (ℚ × String × Nat)) (w : Nat × ℚ × String) :
    (dedupStep acc w).map Prod.fst = acc.map Prod.fst ∨
    (dedupStep acc w).map Prod.fst = acc.map Prod.fst ++ [w.2.1] := by
  unfold dedupStep
  cases hf : acc.find? (fun x => x.1 = w.2.1) with
  | none =>
    simp only [hf]
    right
    simp
  | some ex =>
    simp only [hf]
    left
    split
    · exact replace_map_keys acc w
    · rfl

/-- One deduplication step keeps the key column duplicate-free. -/
theorem dedupStep_nodup (acc : List (ℚ × String × Nat)) (w : Nat × ℚ × String)
    (h : (acc.map Prod.fst).Nodup) : ((dedupStep acc w).map Prod.fst).Nodup := by
  unfold dedupStep
  cases hf : acc.find? (fun x => x.1 = w.2.1) with
  | none =>
    simp only [hf]
    have hnot : w.2.1 ∉ acc.map Prod.fst := by
      intro hmem
      rcases List.mem_map.mp hmem with ⟨e, he, hk⟩
      have := List.find?_eq_none.mp hf e he
      simp [hk] at this
    rw [List.map_append]
    refine List.Nodup.append h (List.nodup_singleton _) ?_
    intro a ha hb
    rw [show (List.map Prod.fst [(w.2.1, w.2.2, w.1)]) = [w.2.1] from rfl,
      List.mem_singleton] at hb
    subst hb
    exact hnot ha
  | some ex =>
    simp only [hf]
    split
    · rw [replace_map_keys acc w]
      exact h
    · exact h

/-- After processing one option, some entry carries its normalized key
with an original value at least as large. -/
theorem dedupStep_covers (acc : List (ℚ × String × Nat)) (w : Nat × ℚ × String) :
    ∃ e ∈ dedupStep acc w, e.1 = w.2.1 ∧ w.1 ≤ e.2.2 := by
  unfold dedupStep
  cases hf : acc.find? (fun x => x.1 = w.2.1) with
  | none =>
    simp only [hf]
    exact ⟨(w.2.1, w.2.2, w.1), by simp, rfl, le_refl _⟩
  | some ex =>
    simp only [hf]
    have hex_mem : ex ∈ acc := List.mem_of_find?_eq_some hf
    have hex_key : ex.1 = w.2.1 := by simpa using List.find?_some hf
    by_cases hgt : w.1 > ex.2.2
    · rw [if_pos hgt]
      refine ⟨(w.2.1, w.2.2, w.1), ?_, rfl, le_refl _⟩
      exact List.mem_map.mpr ⟨ex, hex_mem, by rw [if_pos hex_key]⟩
    · rw [if_neg hgt]
      exact ⟨ex, hex_mem, hex_key, not_lt.mp hgt⟩

/-- Existing entries survive one step with the same key and no smaller
original value. -/
theorem dedupStep_mono (acc : List (ℚ × String × Nat)) (w : Nat × ℚ × String)
    (e : ℚ × String × Nat) (hnd : (acc.map Prod.fst).Nodup) (he : e ∈ acc) :
    ∃ e' ∈ dedupStep acc w, e'.1 = e.1 ∧ e.2.2 ≤ e'.2.2 := by
  unfold dedupStep
  cases hf : acc.find? (fun x => x.1 = w.2.1) with
  | none =>
    simp only [hf]
    exact ⟨e, List.mem_append_left _ he, rfl, le_refl _⟩
  | some ex =>
    simp only [hf]
    have hex_mem : ex ∈ acc := List.mem_of_find?_eq_some hf
    have hex_key : ex.1 = w.2.1 := by simpa using List.find?_some hf
    by_cases hgt : w.1 > ex.2.2
    · rw [if_pos hgt]
      by_cases hk : e.1 = w.2.1
      · have hee : e = ex :=
          List.inj_on_of_nodup_map hnd he hex_mem (by rw [hk, hex_key])
        refine ⟨(w.2.1, w.2.2, w.1), ?_, by rw [hk], ?_⟩
        · exact List.mem_map.mpr ⟨e, he, by rw [if_pos hk]⟩
        · rw [hee]
          exact le_of_lt hgt
      · exact ⟨e, List.mem_map.mpr ⟨e, he, by rw [if_neg hk]⟩, rfl, le_refl _⟩
    · rw [if_neg hgt]
      exact ⟨e, he, rfl, le_refl _⟩

/-- Characterization of the whole deduplication fold: keys stay
duplicate-free, every produced entry stems from a processed option, and
every processed option's original value is dominated by the entry that
carries its normalized key. -/
theorem dedup_fold_spec (l : List (Nat × ℚ × String)) :
    ∀ (acc : List (ℚ × String × Nat)), (acc.map Prod.fst).Nodup →
    (((l.foldl dedupStep acc).map Prod.fst).Nodup ∧
     (∀ e ∈ l.foldl dedupStep acc,
        (e ∈ acc ∨ ∃ w ∈ l, e = (w.2.1, w.2.2, w.1)) ∧
        (∀ w ∈ l, w.2.1 = e.1 → w.1 ≤ e.2.2)) ∧
     (∀ e ∈ acc, ∃ e' ∈ l.foldl dedupStep acc, e'.1 = e.1 ∧ e.2.2 ≤ e'.2.2)) := by
  induction l with
  | nil =>
    intro acc hnd
    refine ⟨hnd, ?_, ?_⟩
    · intro e he
      exact ⟨Or.inl he, by simp⟩
    · intro e he
      exact ⟨e, he, rfl, le_refl _⟩
  | cons w l ih =>
    intro acc hnd
    have hnd' := dedupStep_nodup acc w hnd
    obtain ⟨ih1, ih2, ih3⟩ := ih (dedupStep acc w) hnd'
    refine ⟨ih1, ?_, ?_⟩
    · intro e he
      obtain ⟨hprov, hmax⟩ := ih2 e he
      constructor
      · rcases hprov with hacc' | ⟨w', hw', he'⟩
        · rcases dedupStep_mem acc w e hacc' with hacc | hw
          · exact Or.inl hacc
          · exact Or.inr ⟨w, by simp, hw⟩
        · exact Or.inr ⟨w', by simp [hw'], he'⟩
      · intro w' hw' hkey
        rcases List.mem_cons.mp hw' with rfl | htail
        · obtain ⟨e₁, he₁, he₁key, he₁le⟩ := dedupStep_covers acc w'
          obtain ⟨e', he', he'key, he'le⟩ := ih3 e₁ he₁
          have hee' : e = e' :=
            List.inj_on_of_nodup_map ih1 he he'
              (by rw [he'key, he₁key, hkey])
          rw [hee']
          exact le_trans he₁le he'le
        · exact hmax w' htail hkey
    · intro e he
      obtain ⟨e₁, he₁, hkey₁, hle₁⟩ := dedupStep_mono acc w e hnd he
      obtain ⟨e', he', hkey', hle'⟩ := ih3 e₁ he₁
      exact ⟨e', he', by rw [hkey', hkey₁], le_trans hle₁ hle'⟩

/-- A natural raw value not exceeding the scale maximum normalizes into
the canonical band `[1, 4]`. -/
theorem normalizeScore_nat_band (r M : ℕ) (hrM : r ≤ M) :
    1 ≤ normalizeScore (r : ℚ) (M : ℚ) ∧ normalizeScore (r : ℚ) (M : ℚ) ≤ 4 := by
  by_cases hr0 : (r : ℚ) < 1 ∨ (M : ℚ) < 1
  · unfold normalizeScore
    rw [if_pos hr0]
    norm_num
  · unfold normalizeScore
    rw [if_neg hr0]
    push_neg at hr0
    by_cases h4 : (M : ℚ) = 4
    · rw [if_pos h4]
      refine ⟨hr0.1, ?_⟩
      calc (r : ℚ) ≤ (M : ℚ) := by exact_mod_cast hrM
        _ = 4 := h4
    · rw [if_neg h4]
      by_cases h3 : (M : ℚ) = 3
      · rw [if_pos h3]
        exact SupplierTool.clamp_mem_band _
      · rw [if_neg h3]
        by_cases h5 : (M : ℚ) = 5
        · rw [if_pos h5]
          exact SupplierTool.clamp_mem_band _
        · rw [if_neg h5]
          by_cases h1 : (M : ℚ) ≤ 1
          · rw [if_pos h1]
            norm_num
          · rw [if_neg h1]
            exact SupplierTool.clamp_mem_band _

end SupplierTool.CsvParser

section ClaimC6

open SupplierTool SupplierTool.CsvParser

/-- C6: for every non-empty raw option list, the normalization tail of
`parseScoringGuide` yields a list sorted descending by canonical value,
with duplicate-free canonical values all inside `[1, 4]`, and every
output option carries the label of an input option whose raw value is
maximal among the raw values normalizing to that canonical value (with
`M` the maximum raw value, which is the scale used to normalize). -/
theorem normalizeOptions_spec (opts : List (Nat × String)) (hne : opts ≠ []) :
    List.Pairwise (fun a b => b.value ≤ a.value) (normalizeOptions opts) ∧
    ((normalizeOptions opts).map CriterionOption.value).Nodup ∧
    (∀ o ∈ normalizeOptions opts, 1 ≤ o.value ∧ o.value ≤ 4) ∧
    ∃ M, (∃ p ∈ opts, p.1 = M) ∧ (∀ p ∈ opts, p.1 ≤ M) ∧
      ∀ o ∈ normalizeOptions opts, ∃ p ∈ opts, o.label = p.2 ∧
        normalizeScore (p.1 : ℚ) (M : ℚ) = o.value ∧
        ∀ q ∈ opts, normalizeScore (q.1 : ℚ) (M : ℚ) = o.value → q.1 ≤ p.1 := by
  cases hs : sortDescBy (fun o : Nat × String => (o.1 : ℚ)) opts with
  | nil =>
    have h := sortDescBy_perm (fun o : Nat × String => (o.1 : ℚ)) opts
    rw [hs] at h
    exact absurd h.symm.eq_nil hne
  | cons top rest =>
    have hperm0 : (top :: rest).Perm opts := by
      have h := sortDescBy_perm (fun o : Nat × String => (o.1 : ℚ)) opts
      rwa [hs] at h
    have hpair0 : List.Pairwise
        (fun a b : Nat × String => (fun o : Nat × String => (o.1 : ℚ)) b ≤
          (fun o : Nat × String => (o.1 : ℚ)) a) (top :: rest) := by
      have h := sortDescBy_pairwise (fun o : Nat × String => (o.1 : ℚ)) opts
      rwa [hs] at h
    have htop_mem : top ∈ opts := hperm0.subset (by simp)
    have hmax : ∀ p ∈ opts, p.1 ≤ top.1 := by
      intro p hp
      rcases List.mem_cons.mp (hperm0.symm.subset hp) with rfl | hpr
      · exact le_refl _
      · have h := (List.pairwise_cons.mp hpair0).1 p hpr
        simp only at h
        exact_mod_cast h
    have hN : normalizeOptions opts =
        sortDescBy (fun o => o.value)
          ((((top :: rest).map fun o =>
              (o.1, normalizeScore (o.1 : ℚ) ((top.1 : ℕ) : ℚ), o.2)).foldl
                dedupStep []).map fun e => ⟨e.1, e.2.1⟩) := by
      unfold normalizeOptions
      rw [hs]
    obtain ⟨hnd, hmem, -⟩ := dedup_fold_spec
      ((top :: rest).map fun o => (o.1, normalizeScore (o.1 : ℚ) ((top.1 : ℕ) : ℚ), o.2))
      [] (by simp)
    set W := (top :: rest).map fun o =>
      (o.1, normalizeScore (o.1 : ℚ) ((top.1 : ℕ) : ℚ), o.2) with hW
    set UM := W.foldl dedupStep [] with hUM
    have houtperm : (normalizeOptions opts).Perm (UM.map fun e =>
        (⟨e.1, e.2.1⟩ : CriterionOption)) := by
      rw [hN]
      exact sortDescBy_perm _ _
    have hvals : ((UM.map fun e => (⟨e.1, e.2.1⟩ : CriterionOption)).map
        CriterionOption.value) = UM.map Prod.fst := by
      rw [List.map_map]
      exact List.map_congr_left fun e _ => rfl
    have hprov : ∀ o ∈ normalizeOptions opts, ∃ p ∈ opts,
        o.label = p.2 ∧ o.value = normalizeScore (p.1 : ℚ) ((top.1 : ℕ) : ℚ) ∧
        ∀ q ∈ opts,
          normalizeScore (q.1 : ℚ) ((top.1 : ℕ) : ℚ) = o.value → q.1 ≤ p.1 := by
      intro o ho
      obtain ⟨e, he, rfl⟩ := List.mem_map.mp (houtperm.subset ho)
      obtain ⟨hprove, hmaxe⟩ := hmem e he
      rcases hprove with hnil | ⟨w, hwW, hew⟩
      · simp at hnil
      · obtain ⟨p₀, hp₀, hfp₀⟩ := List.mem_map.mp hwW
        refine ⟨p₀, hperm0.subset hp₀, ?_, ?_, ?_⟩
        · rw [hew, ← hfp₀]
        · rw [hew, ← hfp₀]
        · intro q hq hqval
          have hfq : (q.1, normalizeScore (q.1 : ℚ) ((top.1 : ℕ) : ℚ), q.2) ∈ W :=
            List.mem_map.mpr ⟨q, hperm0.symm.subset hq, rfl⟩
          have := hmaxe _ hfq (by simpa using hqval)
          rw [hew, ← hfp₀] at this
          exact this
    refine ⟨?_, ?_, ?_, ?_⟩
    · rw [hN]
      exact sortDescBy_pairwise _ _
    · have hperm_vals := houtperm.map CriterionOption.value
      rw [hvals] at hperm_vals
      exact hperm_vals.nodup_iff.mpr hnd
    · intro o ho
      obtain ⟨p, hp, -, hval, -⟩ := hprov o ho
      rw [hval]
      exact normalizeScore_nat_band p.1 top.1 (hmax p hp)
    · refine ⟨top.1, ⟨top, htop_mem, rfl⟩, hmax, ?_⟩
      intro o ho
      obtain ⟨p, hp, hlab, hval, hmaxq⟩ := hprov o ho
      exact ⟨p, hp, hlab, hval.symm, hmaxq⟩

/-- C6 witness: the specification at a concrete five-point scale whose
raw values `4` and `3` collide on canonical value `3`. -/
theorem normalizeOptions_spec_witness :
    List.Pairwise (fun a b => b.value ≤ a.value)
      (normalizeOptions ([(5, "A"), (4, "B"), (3, "C"), (2, "D"), (1, "E")] : List (ℕ × String))) ∧
    ((normalizeOptions ([(5, "A"), (4, "B"), (3, "C"), (2, "D"), (1, "E")] : List (ℕ × String))).map
      CriterionOption.value).Nodup ∧
    (∀ o ∈ normalizeOptions ([(5, "A"), (4, "B"), (3, "C"), (2, "D"), (1, "E")] : List (ℕ × String)),
      1 ≤ o.value ∧ o.value ≤ 4) ∧
    ∃ M : ℕ, (∃ p ∈ ([(5, "A"), (4, "B"), (3, "C"), (2, "D"), (1, "E")] : List (ℕ × String)), p.1 = M) ∧
      (∀ p ∈ ([(5, "A"), (4, "B"), (3, "C"), (2, "D"), (1, "E")] : List (ℕ × String)), p.1 ≤ M) ∧
      ∀ o ∈ normalizeOptions ([(5, "A"), (4, "B"), (3, "C"), (2, "D"), (1, "E")] : List (ℕ × String)),
        ∃ p ∈ ([(5, "A"), (4, "B"), (3, "C"), (2, "D"), (1, "E")] : List (ℕ × String)), o.label = p.2 ∧
          normalizeScore (p.1 : ℚ) (M : ℚ) = o.value ∧
          ∀ q ∈ ([(5, "A"), (4, "B"), (3, "C"), (2, "D"), (1, "E")] : List (ℕ × String)),
            normalizeScore (q.1 : ℚ) (M : ℚ) = o.value → q.1 ≤ p.1 :=
  normalizeOptions_spec ([(5, "A"), (4, "B"), (3, "C"), (2, "D"), (1, "E")] : List (ℕ × String)) (by decide)

end ClaimC6

